import Mathlib

/-!
Verification of the `chksum` checksum tool (Rust) against its specification.

The Rust sources are shallowly embedded: pure functions become Lean functions on
`List Char` / `List Nat` (Rust strings are kept as character lists together with
their UTF-8 byte arithmetic, bytes are naturals below 256), fallible code
returns `Except` or the panic-aware `RRes`, and the two thread-pool pipelines
become functions of the enumerated work list plus the order in which worker
messages reach the result channel.  File-system dependent behaviour (directory
enumeration, canonicalization, file digests) enters each model as explicit data
or function arguments.
-/

namespace Chksum

/-- Hash algorithms supported by the tool (src/cmd_line.rs, `enum Algorithm`). -/
inductive Algorithm where
  | MD5
  | SHA1
  | SHA224
  | SHA256
  | SHA384
  | SHA512
deriving DecidableEq

/-- Application error kinds (src/error.rs, `enum AppError`).  Paths and strings
carried by the variants are kept as character lists. -/
inductive AppError where
  | InvalidAlgorithmError (s : List Char)
  | InvalidFileError (p : List Char)
  | UnknownAlgorithmError (bits : Nat)
  | InvalidHashValue (s : List Char)
  | UnknownError
deriving DecidableEq

/-- Outcome of a Rust computation that can panic: `crash` models a Rust panic
(such as a string-slice boundary violation), `error` an `Err`, `ok` an `Ok`. -/
inductive RRes (α : Type) where
  | crash
  | error (e : AppError)
  | ok (a : α)
deriving DecidableEq

/-- Byte length of a Rust string given as its character list (`str::len`). -/
def utf8Len : List Char → Nat
  | [] => 0
  | c :: r => c.utf8Size + utf8Len r

/-- The value of a hexadecimal digit character (`char::to_digit(16)`). -/
def hexDigitVal (c : Char) : Option Nat :=
  if '0' ≤ c ∧ c ≤ '9' then some (c.toNat - 48)
  else if 'a' ≤ c ∧ c ≤ 'f' then some (c.toNat - 87)
  else if 'A' ≤ c ∧ c ≤ 'F' then some (c.toNat - 55)
  else none

/-- `u8::from_str_radix(s, 16)` for a two-character slice `[c1, c2]`: an
optional leading `+` sign followed by hexadecimal digits.  A `-` sign is
rejected for the unsigned type `u8`. -/
def from_str_radix16 (c1 c2 : Char) : Option Nat :=
  if c1 = '+' then hexDigitVal c2
  else
    match hexDigitVal c1, hexDigitVal c2 with
    | some h, some l => some (16 * h + l)
    | _, _ => none

/-- The loop of `str_to_bytes` (src/checksum.rs:37-40): the byte slice
`&s[idx .. idx+2]` taken out of the remaining characters of `s`.  A slice that
would cut a multi-byte character, or run past the end of the string, panics in
Rust (`crash`); a valid two-byte slice consisting of one two-byte character is
rejected by `u8::from_str_radix`. -/
def str_to_bytes_go (s : List Char) : List Char → RRes (List Nat)
  | [] => .ok []
  | c :: rest =>
    if c.utf8Size = 1 then
      match rest with
      | [] => .crash
      | c2 :: rest2 =>
        if c2.utf8Size = 1 then
          match from_str_radix16 c c2 with
          | some b =>
            match str_to_bytes_go s rest2 with
            | .ok bs => .ok (b :: bs)
            | r => r
          | none => .error (.InvalidHashValue s)
        else .crash
    else if c.utf8Size = 2 then .error (.InvalidHashValue s)
    else .crash

/-- `str_to_bytes` (src/checksum.rs:32-42): decode a hexadecimal string into
bytes.  Strings of odd byte length are rejected up front
(`s.len() / 2 * 2 != s.len()`), then consecutive two-byte slices are parsed
with `u8::from_str_radix`. -/
def str_to_bytes (s : List Char) : RRes (List Nat) :=
  if utf8Len s / 2 * 2 ≠ utf8Len s then .error (.InvalidHashValue s)
  else str_to_bytes_go s s

/-- `guess_algorithm` (src/checksum.rs:20-30): infer the algorithm from a
digest byte length; the error carries the length in bits (`hash_size * 8`). -/
def guess_algorithm (hash_size : Nat) : Except AppError Algorithm :=
  match hash_size with
  | 16 => .ok .MD5
  | 20 => .ok .SHA1
  | 28 => .ok .SHA224
  | 32 => .ok .SHA256
  | 48 => .ok .SHA384
  | 64 => .ok .SHA512
  | n => .error (.UnknownAlgorithmError (n * 8))

/-- The character of one lowercase hexadecimal digit value. -/
def hexChar (n : Nat) : Char :=
  if n < 10 then Char.ofNat (48 + n) else Char.ofNat (87 + n)

/-- One byte rendered by `format!("{:02x}", b)` for `b < 256`: exactly two
lowercase hexadecimal digits. -/
def byte_to_hex (b : Nat) : List Char :=
  [hexChar (b / 16), hexChar (b % 16)]

/-- The checksum string built in `generate_checksums` (src/main.rs:104):
`join(checksum.into_iter().map(|b| format!("{:02x}", b)), "")`. -/
def hex_encode : List Nat → List Char
  | [] => []
  | b :: r => byte_to_hex b ++ hex_encode r

/-- `verify_checksum` (src/checksum.rs:58-62).  `calc a` stands for
`calculate_checksum(path, a)`, whose value depends on the file system and
enters the model as an argument.  The Rust source reads
`algorithm.unwrap_or(guess_algorithm(checksum.len() / 2)?)`: the argument of
`unwrap_or` is evaluated eagerly, so `guess_algorithm` runs — and its `?`
propagates an `UnknownAlgorithmError` — even when an explicit algorithm is
supplied. -/
def verify_checksum (calcDigest : Algorithm → Except AppError (List Nat))
    (path checksum : List Char) (algorithm : Option Algorithm) :
    RRes (List Char × Bool) :=
  match guess_algorithm (utf8Len checksum / 2) with
  | .error e => .error e
  | .ok guessed =>
    let alg := algorithm.getD guessed
    let calculated := calcDigest alg
    match str_to_bytes checksum with
    | .crash => .crash
    | .error e => .error e
    | .ok expected =>
      match calculated with
      | .error e => .error e
      | .ok c => .ok (path, decide (expected = c))

/-! SHA-256, the digest construction selected by `get_hasher` for
`Algorithm::SHA256` (src/checksum.rs:14).  The hash itself lives in the
external `sha2` crate; it is reproduced here following FIPS 180-4, and it is
pinned below against the repository's own test vector for the file contents
`"abcdABCD1234"` (src/checksum.rs:79). -/

/-- Reduction modulo `2 ^ 32`, the word size of SHA-256. -/
def m32 (x : Nat) : Nat := x % 4294967296

/-- Right rotation of a 32-bit word. -/
def rotr32 (n x : Nat) : Nat := (x >>> n) ||| m32 (x <<< (32 - n))

/-- The SHA-256 choice function `Ch(e,f,g)`. -/
def sha_ch (e f g : Nat) : Nat := (e &&& f) ^^^ (m32 (e ^^^ 4294967295) &&& g)

/-- The SHA-256 majority function `Maj(a,b,c)`. -/
def sha_maj (a b c : Nat) : Nat := ((a &&& b) ^^^ (a &&& c)) ^^^ (b &&& c)

/-- The big sigma-0 function of SHA-256. -/
def bsig0 (x : Nat) : Nat := (rotr32 2 x ^^^ rotr32 13 x) ^^^ rotr32 22 x

/-- The big sigma-1 function of SHA-256. -/
def bsig1 (x : Nat) : Nat := (rotr32 6 x ^^^ rotr32 11 x) ^^^ rotr32 25 x

/-- The small sigma-0 function of SHA-256. -/
def ssig0 (x : Nat) : Nat := (rotr32 7 x ^^^ rotr32 18 x) ^^^ (x >>> 3)

/-- The small sigma-1 function of SHA-256. -/
def ssig1 (x : Nat) : Nat := (rotr32 17 x ^^^ rotr32 19 x) ^^^ (x >>> 10)

/-- The 64 SHA-256 round constants, as decimal word values. -/
def sha256_k : List Nat :=
  [1116352408, 1899447441, 3049323471, 3921009573,
   961987163, 1508970993, 2453635748, 2870763221,
   3624381080, 310598401, 607225278, 1426881987,
   1925078388, 2162078206, 2614888103, 3248222580,
   3835390401, 4022224774, 264347078, 604807628,
   770255983, 1249150122, 1555081692, 1996064986,
   2554220882, 2821834349, 2952996808, 3210313671,
   3336571891, 3584528711, 113926993, 338241895,
   666307205, 773529912, 1294757372, 1396182291,
   1695183700, 1986661051, 2177026350, 2456956037,
   2730485921, 2820302411, 3259730800, 3345764771,
   3516065817, 3600352804, 4094571909, 275423344,
   430227734, 506948616, 659060556, 883997877,
   958139571, 1322822218, 1537002063, 1747873779,
   1955562222, 2024104815, 2227730452, 2361852424,
   2428436474, 2756734187, 3204031479, 3329325298]

/-- The SHA-256 initial hash state, as decimal word values. -/
def sha256_h0 : List Nat :=
  [1779033703, 3144134277, 1013904242, 2773480762,
   1359893119, 2600822924, 528734635, 1541459225]

/-- The `count` most significant base-256 digits of a value, big endian. -/
def be_bytes : Nat → Nat → List Nat
  | 0, _ => []
  | n + 1, v => be_bytes n (v / 256) ++ [v % 256]

/-- SHA-256 message padding: a `0x80` byte, zeros up to 56 modulo 64, and the
bit length as a 64-bit big-endian value. -/
def pad256 (msg : List Nat) : List Nat :=
  msg ++ 128 :: List.replicate ((119 - msg.length % 64) % 64) 0
    ++ be_bytes 8 (8 * msg.length)

/-- Big-endian 32-bit words of a byte sequence. -/
def to_words : List Nat → List Nat
  | a :: b :: c :: d :: r => (((a * 256 + b) * 256 + c) * 256 + d) :: to_words r
  | _ => []

/-- The next word of the SHA-256 message schedule. -/
def next_w (ws : List Nat) : Nat :=
  let k := ws.length
  m32 (ssig1 (ws.getD (k - 2) 0) + ws.getD (k - 7) 0
    + ssig0 (ws.getD (k - 15) 0) + ws.getD (k - 16) 0)

/-- Extend the 16-word message block by `n` schedule words. -/
def extend_w : Nat → List Nat → List Nat
  | 0, ws => ws
  | n + 1, ws => extend_w n (ws ++ [next_w ws])

/-- One SHA-256 round on the eight-word state. -/
def sha256_round (st : List Nat) (kw : Nat × Nat) : List Nat :=
  let a := st.getD 0 0
  let b := st.getD 1 0
  let c := st.getD 2 0
  let d := st.getD 3 0
  let e := st.getD 4 0
  let f := st.getD 5 0
  let g := st.getD 6 0
  let h := st.getD 7 0
  let t1 := m32 (h + bsig1 e + sha_ch e f g + kw.1 + kw.2)
  let t2 := m32 (bsig0 a + sha_maj a b c)
  [m32 (t1 + t2), a, b, c, m32 (d + t1), e, f, g]

/-- The SHA-256 compression function on one 64-byte block. -/
def sha256_compress (st block : List Nat) : List Nat :=
  let ws := extend_w 48 (to_words block)
  let st2 := (sha256_k.zip ws).foldl sha256_round st
  List.zipWith (fun x y => m32 (x + y)) st st2

/-- The padded message cut into 64-byte blocks (`n` is the block count). -/
def chunks64 : Nat → List Nat → List (List Nat)
  | 0, _ => []
  | n + 1, l => l.take 64 :: chunks64 n (l.drop 64)

/-- SHA-256 of a byte sequence. -/
def sha256 (msg : List Nat) : List Nat :=
  let p := pad256 msg
  let final := (chunks64 (p.length / 64) p).foldl sha256_compress sha256_h0
  final.foldr (fun w acc => be_bytes 4 w ++ acc) []

/-- `calculate_checksum` (src/checksum.rs:44-56) for a readable regular file
whose contents are the byte sequence `data`, under `Algorithm::SHA256`: the
chunked read folds every byte into the hasher, so the result is the SHA-256
digest of the whole contents.  Only the SHA-256 hasher is modelled; every
claim below resolves the algorithm to SHA-256 before this function is
consulted. -/
def calculate_checksum_sha256 (data : List Nat) (a : Algorithm) :
    Except AppError (List Nat) :=
  match a with
  | .SHA256 => .ok (sha256 data)
  | _ => .error .UnknownError

/-- The byte contents `"abcdABCD1234"` of the file in the repository's test
`test_checksum` (src/checksum.rs:72-75). -/
def test_msg : List Nat := [97, 98, 99, 100, 65, 66, 67, 68, 49, 50, 51, 52]

/-- The 63-character digest string printed in the specification for the
`"abcdABCD1234"` scenario. -/
def spec_hex63 : List Char :=
  ['4', '2', '3', 'd', 'f', '0', 'd', 'a', 'b', '6', 'a', '9', '7', 'c',
   '4', '6', '2', '3', '9', 'd', '1', '9', '6', 'a', 'd', '6', 'f', '6',
   '1', '0', 'e', 'd', 'f', '5', '4', '8', '4', '6', '5', '0', 'e', '9',
   'e', '7', '0', '8', '5', '6', '3', '4', '0', '4', '5', 'e', '8', 'b',
   '3', 'f', 'c', '1', '9', 'd', '0']

/-! Paths and their ordering.  `PathBuf` comparison in Rust
(`results.sort_by(|e1, e2| e1.0.partial_cmp(&e2.0).unwrap())`, src/main.rs:113)
is lexicographic over the iterator of `Component`s, each component compared as
its byte string, with the special components ordered before normal ones. -/

/-- Three-way comparison of naturals (byte values). -/
def cmpNat (a b : Nat) : Ordering :=
  if a < b then .lt else if b < a then .gt else .eq

/-- Lexicographic comparison of two lists, as Rust compares iterators
(`Iterator::cmp`): the first non-equal position decides, a strict prefix is
smaller. -/
def cmpLex (f : α → α → Ordering) : List α → List α → Ordering
  | [], [] => .eq
  | [], _ :: _ => .lt
  | _ :: _, [] => .gt
  | a :: l1, b :: l2 =>
    match f a b with
    | .eq => cmpLex f l1 l2
    | o => o

/-- One `std::path::Component` of a Unix path.  Rust orders
`RootDir < CurDir < ParentDir < Normal`, and normal components by their
bytes. -/
inductive Comp where
  | rootDir
  | curDir
  | parentDir
  | normal (bytes : List Nat)
deriving DecidableEq

/-- Order-faithful encoding of a component as a tagged byte list. -/
def Comp.key : Comp → List Nat
  | .rootDir => [0]
  | .curDir => [1]
  | .parentDir => [2]
  | .normal bs => 3 :: bs

/-- `PathBuf::partial_cmp` via component keys. -/
def pathCmp (p q : List Comp) : Ordering :=
  cmpLex (cmpLex cmpNat) (p.map Comp.key) (q.map Comp.key)

/-- The non-strict path order used by the generation sort. -/
def pathLe (p q : List Comp) : Bool :=
  match pathCmp p q with
  | .gt => false
  | _ => true

/-- The sort order of `results.sort_by` (src/main.rs:113): compare the path of
each `(path, checksum-string)` pair. -/
def path_order (x y : List Comp × List Char) : Prop := pathLe x.1 y.1 = true

instance : DecidableRel path_order := fun x y =>
  inferInstanceAs (Decidable (pathLe x.1 y.1 = true))

/-- Byte-wise comparison of two rendered (ASCII) strings. -/
def byte_str_cmp (a b : List Char) : Ordering :=
  cmpLex cmpNat (a.map Char.toNat) (b.map Char.toNat)

/-- `Path::display` of a component. -/
def render_comp : Comp → List Char
  | .rootDir => ['/']
  | .curDir => ['.']
  | .parentDir => ['.', '.']
  | .normal bs => bs.map Char.ofNat

/-- `Path::display` of a component list, separated by `/` (no separator after
a leading root). -/
def render_path : List Comp → List Char
  | [] => []
  | [c] => render_comp c
  | .rootDir :: r => '/' :: render_path r
  | c :: r => render_comp c ++ '/' :: render_path r

/-- `path.strip_prefix("./").unwrap_or(&path)` (src/main.rs:103): drop a
leading `.` component when there is one. -/
def strip_dot : List Comp → List Comp
  | .curDir :: r => r
  | p => p

/-! The exclusion filter (src/main.rs:29-63).  Path canonicalization depends on
the file system and enters the model as the function `canon`; `canon p = none`
models `p.canonicalize()` returning `Err`. -/

/-- `itertools::unique` as used by `Exclusion::new`: keep the first occurrence
of every element (`seen` is the set of already-produced elements). -/
def unique_aux [DecidableEq α] : List α → List α → List α
  | _, [] => []
  | seen, a :: r =>
    if a ∈ seen then unique_aux seen r else a :: unique_aux (a :: seen) r

/-- `itertools::unique` over a list. -/
def unique_list [DecidableEq α] (l : List α) : List α := unique_aux [] l

/-- `Exclusion::new` (src/main.rs:34-48): canonicalize each configured
exclusion path, where an entry equal to the `-` sentinel stands for the
manifest file itself — dropped entirely when the manifest goes to standard
output; entries that fail to canonicalize are silently dropped. -/
def Exclusion.new (excludes : List (List Char)) (checksum_file : List Char)
    (canon : List Char → Option (List Char)) : List (List Char) :=
  unique_list (excludes.filterMap fun p =>
    if p = ['-'] then
      if checksum_file = ['-'] then none else canon checksum_file
    else canon p)

/-- `Exclusion::is_excluded` (src/main.rs:50-62): canonicalize the candidate
(treated as not excluded if that fails) and test exact membership. -/
def Exclusion.is_excluded (e : List (List Char))
    (canon : List Char → Option (List Char)) (path : List Char) : Bool :=
  match canon path with
  | none => false
  | some c => e.contains c

/-! The generation pipeline (src/main.rs:65-120). -/

instance exceptDecidableEq {ε α : Type} [DecidableEq ε] [DecidableEq α] :
    DecidableEq (Except ε α) := fun a b =>
  match a, b with
  | .ok x, .ok y =>
    if h : x = y then .isTrue (by rw [h]) else .isFalse (by simp [h])
  | .ok _, .error _ => .isFalse (by simp)
  | .error _, .ok _ => .isFalse (by simp)
  | .error x, .error y =>
    if h : x = y then .isTrue (by rw [h]) else .isFalse (by simp [h])

/-- What `walkdir` handed the submission loop for one entry
(src/main.rs:73-90): either a traversal error (only logged), or a directory
entry together with the file-system facts the run observes about it — the
loop-time `is_dir` / `is_file` / `is_excluded` answers and the result the
worker's `output_checksum e` call will produce (the digest bytes, or the error
for a file that is gone or not regular by the time the worker runs).
File-system behaviour enters the model as this data. -/
inductive GenEntry where
  | err
  | file (path : List Comp) (isDir : Bool) (isFile : Bool) (excluded : Bool)
      (result : Except AppError (List Nat))
deriving DecidableEq

/-- The `continue` condition of the submission loop (src/main.rs:76):
`e.path().is_dir() || !e.path().is_file() || exclusion.is_excluded(e.path())`. -/
def skip_entry (isDir isFile excluded : Bool) : Bool :=
  isDir || !isFile || excluded

/-- The value of `count` after the submission loop.  `count += 1`
(src/main.rs:89) sits after the `match`, inside the `for` body: a skipped file
jumps past it with `continue`, but a traversal-error entry falls through and is
counted although nothing was submitted for it. -/
def gen_count : List GenEntry → Nat
  | [] => 0
  | .err :: r => gen_count r + 1
  | .file _ d f x _ :: r => if skip_entry d f x then gen_count r else gen_count r + 1

/-- The units actually handed to the thread pool, in enumeration order. -/
def gen_submitted : List GenEntry → List (List Comp × Except AppError (List Nat))
  | [] => []
  | .err :: r => gen_submitted r
  | .file p d f x res :: r =>
    if skip_entry d f x then gen_submitted r else (p, res) :: gen_submitted r

/-- The message each submitted unit eventually sends on the channel
(src/main.rs:81-83): the `output_checksum` result, carrying the entry path on
success (src/main.rs:20-27). -/
def gen_msgs (entries : List GenEntry) : List (Except AppError (List Comp × List Nat)) :=
  (gen_submitted entries).map fun u =>
    match u.2 with
    | .ok d => .ok (u.1, d)
    | .error e => .error e

/-- The drain loop (src/main.rs:100-112): one receive per counted unit; a
successful result is pushed (prefix-stripped path, hex string) in arrival
order, a failed result is logged and clears `all_succeeded`. -/
def gen_drain : List (Except AppError (List Comp × List Nat)) →
    List (List Comp × List Char) × Bool
  | [] => ([], true)
  | .ok (p, d) :: r =>
    ((strip_dot p, hex_encode d) :: (gen_drain r).1, (gen_drain r).2)
  | .error _ :: r => ((gen_drain r).1, false)

/-- One manifest line `format!("{}  {}\n", e.1, e.0.display())`
(src/main.rs:115). -/
def render_line (e : List Comp × List Char) : List Char :=
  e.2 ++ ' ' :: ' ' :: (render_path e.1 ++ ['\n'])

/-- Observable outcome of one `generate_checksums` run: either the drain loop
blocks forever (`rx.iter().next()` waits while the original sender is still in
scope), with the output file already truncated, or the run completes with the
sorted result list, the final file contents (`none` when writing to standard
output) and the `all_succeeded` flag. -/
inductive GenOutcome where
  | hangs (file : Option (List (List Char)))
  | done (written : List (List Comp × List Char))
      (file : Option (List (List Char))) (allSucceeded : Bool)
deriving DecidableEq

/-- `generate_checksums` (src/main.rs:65-120) as a function of the enumerated
`entries`, the order `arrival` in which the workers' messages reach the result
channel (some permutation of `gen_msgs entries`), whether the manifest goes to
standard output, and the previous contents `prev` of the manifest file.  The
output is opened with `truncate(true)` before the drain loop (src/main.rs:96),
so `prev` is discarded there; the drain loop performs `gen_count entries`
receives and blocks forever if fewer messages than that ever arrive. -/
def generate_checksums (entries : List GenEntry)
    (arrival : List (Except AppError (List Comp × List Nat)))
    (toStdout : Bool) (prev : List (List Char)) : GenOutcome :=
  let count := gen_count entries
  let truncated : Option (List (List Char)) := if toStdout then none else some []
  if arrival.length < count then .hangs truncated
  else
    let res := (gen_drain (arrival.take count)).1
    let written := List.insertionSort path_order res
    .done written (truncated.map fun t => t ++ written.map render_line)
      (gen_drain (arrival.take count)).2

/-- The sorted result list of a generation run (empty if the run hangs). -/
def written_of : GenOutcome → List (List Comp × List Char)
  | .hangs _ => []
  | .done w _ _ => w

/-- The successful results carried by a message list, as (prefix-stripped
path, hex string) pairs in message order. -/
def gen_successes (msgs : List (Except AppError (List Comp × List Nat))) :
    List (List Comp × List Char) :=
  msgs.filterMap fun m =>
    match m with
    | .ok (p, d) => some (strip_dot p, hex_encode d)
    | .error _ => none

/-! The verification pipeline (src/main.rs:122-180). -/

/-- `str::split_whitespace` on a character list: maximal runs of
non-whitespace characters (`acc` holds the current token reversed). -/
def split_ws_aux : List Char → List Char → List (List Char)
  | [], acc => if acc = [] then [] else [acc.reverse]
  | c :: r, acc =>
    if c.isWhitespace then
      if acc = [] then split_ws_aux r [] else acc.reverse :: split_ws_aux r []
    else split_ws_aux r (c :: acc)

/-- `line.split_whitespace()` (src/main.rs:147). -/
def split_ws (line : List Char) : List (List Char) := split_ws_aux line []

/-- One manifest line (src/main.rs:147-150): the first token is the checksum,
the second the path; further tokens are ignored, and a line with fewer than
two tokens is logged and skipped (`next_part!` runs `continue` before
`count += 1`). -/
def parse_line (line : List Char) : Option (List Char × List Char) :=
  match split_ws line with
  | checksum :: path :: _ => some (checksum, path)
  | _ => none

/-- The verification units submitted to the pool, in manifest order. -/
def verify_units (manifest : List (List Char)) : List (List Char × List Char) :=
  manifest.filterMap parse_line

/-- The channel messages of a verification run: each submitted unit sends its
`verify_checksum` result (src/main.rs:154-156); a worker that panics sends
nothing. -/
def verify_msgs (calcFile : List Char → Algorithm → Except AppError (List Nat))
    (algorithm : Option Algorithm) (units : List (List Char × List Char)) :
    List (Except AppError (List Char × Bool)) :=
  units.filterMap fun u =>
    match verify_checksum (calcFile u.2) u.2 u.1 algorithm with
    | .crash => none
    | .error e => some (.error e)
    | .ok r => some (.ok r)

/-- The suffix of an `OK` line. -/
def ok_suffix : List Char := [':', ' ', 'O', 'K']

/-- The suffix of a `FAILED` line. -/
def failed_suffix : List Char := [':', ' ', 'F', 'A', 'I', 'L', 'E', 'D']

/-- The drain loop of `verify_checksums` (src/main.rs:160-176): per received
comparison print `path: OK` (unless quiet) or `path: FAILED` and fold the
outcome into `all_succeeded`; an error result is only logged to the error
stream — the `Err` arm does not touch `all_succeeded`. -/
def verify_drain (quiet : Bool) :
    List (Except AppError (List Char × Bool)) → List (List Char) × Bool
  | [] => ([], true)
  | .ok (p, ok) :: r =>
    ((if ok then
        if quiet then (verify_drain quiet r).1
        else (p ++ ok_suffix) :: (verify_drain quiet r).1
      else (p ++ failed_suffix) :: (verify_drain quiet r).1),
     (verify_drain quiet r).2 && ok)
  | .error _ :: r => verify_drain quiet r

/-- Observable outcome of one `verify_checksums` run: either the drain loop
blocks forever, or the run completes with the printed report lines and the
aggregate flag. -/
inductive VOutcome where
  | hangs
  | done (printed : List (List Char)) (allSucceeded : Bool)
deriving DecidableEq

/-- `verify_checksums` (src/main.rs:134-180) as a function of the manifest
lines, the optional fixed algorithm, the per-file digest computation
`calcFile` (file-system dependent), the order `arrival` in which worker
messages reach the channel, and the quiet flag.  `count` is incremented once
per submitted unit; the drain loop performs `count` receives and blocks
forever if fewer messages than that ever arrive. -/
def verify_checksums (manifest : List (List Char)) (algorithm : Option Algorithm)
    (calcFile : List Char → Algorithm → Except AppError (List Nat))
    (arrival : List (Except AppError (List Char × Bool))) (quiet : Bool) :
    VOutcome :=
  let count := (verify_units manifest).length
  if arrival.length < count then .hangs
  else .done (verify_drain quiet (arrival.take count)).1
    (verify_drain quiet (arrival.take count)).2

/-- A hexadecimal string accepted pairwise by `u8::from_str_radix`: an even
number of characters, every consecutive pair accepted. -/
def pairs_accepted : List Char → Bool
  | [] => true
  | [_] => false
  | c1 :: c2 :: r => (from_str_radix16 c1 c2).isSome && pairs_accepted r

/-! Helper lemmas. -/

theorem cmpNat_eq_iff (a b : Nat) : cmpNat a b = .eq ↔ a = b := by
  unfold cmpNat
  split_ifs <;> simp <;> omega

theorem cmpNat_gt_iff_lt (a b : Nat) : cmpNat a b = .gt ↔ cmpNat b a = .lt := by
  unfold cmpNat
  split_ifs <;> simp <;> omega

theorem cmpNat_lt_trans (a b c : Nat) :
    cmpNat a b = .lt → cmpNat b c = .lt → cmpNat a c = .lt := by
  intro h1 h2
  unfold cmpNat at h1 h2 ⊢
  split_ifs at h1 h2 ⊢ <;> simp_all <;> omega

theorem cmpLex_eq_iff {α : Type} (f : α → α → Ordering)
    (hf : ∀ a b, f a b = .eq ↔ a = b) :
    ∀ l1 l2 : List α, cmpLex f l1 l2 = .eq ↔ l1 = l2
  | [], [] => by simp [cmpLex]
  | [], _ :: _ => by simp [cmpLex]
  | _ :: _, [] => by simp [cmpLex]
  | a :: l1, b :: l2 => by
    have ih := cmpLex_eq_iff f hf l1 l2
    simp only [cmpLex]
    cases hab : f a b with
    | lt =>
      simp only [List.cons.injEq]
      constructor
      · intro hx; exact absurd hx (by simp)
      · rintro ⟨h1, _⟩
        rw [(hf a b).2 h1] at hab
        exact absurd hab (by simp)
    | eq =>
      have hab2 : a = b := (hf a b).1 hab
      subst hab2
      simp [ih]
    | gt =>
      simp only [List.cons.injEq]
      constructor
      · intro hx; exact absurd hx (by simp)
      · rintro ⟨h1, _⟩
        rw [(hf a b).2 h1] at hab
        exact absurd hab (by simp)

theorem cmpLex_gt_iff_lt {α : Type} (f : α → α → Ordering)
    (hf_eq : ∀ a b, f a b = .eq ↔ a = b)
    (hf_swap : ∀ a b, f a b = .gt ↔ f b a = .lt) :
    ∀ l1 l2 : List α, cmpLex f l1 l2 = .gt ↔ cmpLex f l2 l1 = .lt
  | [], [] => by simp [cmpLex]
  | [], _ :: _ => by simp [cmpLex]
  | _ :: _, [] => by simp [cmpLex]
  | a :: l1, b :: l2 => by
    have ih := cmpLex_gt_iff_lt f hf_eq hf_swap l1 l2
    simp only [cmpLex]
    cases hab : f a b with
    | lt =>
      have hba : f b a = .gt := (hf_swap b a).2 hab
      rw [hba]
      simp
    | eq =>
      have hab2 : a = b := (hf_eq a b).1 hab
      subst hab2
      rw [hab]
      exact ih
    | gt =>
      have hba : f b a = .lt := (hf_swap a b).1 hab
      rw [hba]
      simp

theorem cmpLex_lt_trans {α : Type} (f : α → α → Ordering)
    (hf_eq : ∀ a b, f a b = .eq ↔ a = b)
    (hf_trans : ∀ a b c, f a b = .lt → f b c = .lt → f a c = .lt) :
    ∀ l1 l2 l3 : List α,
      cmpLex f l1 l2 = .lt → cmpLex f l2 l3 = .lt → cmpLex f l1 l3 = .lt
  | [], [], _ => by intro h1 _; simp [cmpLex] at h1
  | [], _ :: _, [] => by intro _ h2; simp [cmpLex] at h2
  | [], _ :: _, _ :: _ => by intro _ _; simp [cmpLex]
  | _ :: _, [], _ => by intro h1 _; simp [cmpLex] at h1
  | _ :: _, _ :: _, [] => by intro _ h2; simp [cmpLex] at h2
  | a :: l1, b :: l2, c :: l3 => by
    have ih := cmpLex_lt_trans f hf_eq hf_trans l1 l2 l3
    intro h1 h2
    simp only [cmpLex] at h1 h2 ⊢
    cases hab : f a b with
    | lt =>
      cases hbc : f b c with
      | lt => rw [hf_trans a b c hab hbc]
      | eq =>
        have hx : b = c := (hf_eq b c).1 hbc
        subst hx
        rw [hab]
      | gt => rw [hbc] at h2; exact absurd h2 (by simp)
    | eq =>
      have hx : a = b := (hf_eq a b).1 hab
      subst hx
      rw [hab] at h1
      cases hbc : f a c with
      | lt => rfl
      | eq => rw [hbc] at h2; exact ih h1 h2
      | gt => rw [hbc] at h2; exact absurd h2 (by simp)
    | gt => rw [hab] at h1; exact absurd h1 (by simp)

theorem cmpKey_eq_iff (x y : List Nat) : cmpLex cmpNat x y = .eq ↔ x = y :=
  cmpLex_eq_iff cmpNat cmpNat_eq_iff x y

theorem cmpKey_gt_iff_lt (x y : List Nat) :
    cmpLex cmpNat x y = .gt ↔ cmpLex cmpNat y x = .lt :=
  cmpLex_gt_iff_lt cmpNat cmpNat_eq_iff cmpNat_gt_iff_lt x y

theorem cmpKey_lt_trans (x y z : List Nat) :
    cmpLex cmpNat x y = .lt → cmpLex cmpNat y z = .lt → cmpLex cmpNat x z = .lt :=
  cmpLex_lt_trans cmpNat cmpNat_eq_iff cmpNat_lt_trans x y z

theorem pathCmp_gt_iff_lt (p q : List Comp) :
    pathCmp p q = .gt ↔ pathCmp q p = .lt :=
  cmpLex_gt_iff_lt (cmpLex cmpNat) cmpKey_eq_iff cmpKey_gt_iff_lt _ _

theorem pathCmp_eq_iff_keys (p q : List Comp) :
    pathCmp p q = .eq ↔ p.map Comp.key = q.map Comp.key :=
  cmpLex_eq_iff (cmpLex cmpNat) cmpKey_eq_iff _ _

theorem pathCmp_lt_trans (p q r : List Comp) :
    pathCmp p q = .lt → pathCmp q r = .lt → pathCmp p r = .lt :=
  cmpLex_lt_trans (cmpLex cmpNat) cmpKey_eq_iff cmpKey_lt_trans _ _ _

theorem pathLe_total (p q : List Comp) : pathLe p q = true ∨ pathLe q p = true := by
  unfold pathLe
  cases h : pathCmp p q with
  | lt => left; rfl
  | eq => left; rfl
  | gt =>
    right
    rw [(pathCmp_gt_iff_lt p q).1 h]

theorem pathLe_trans (p q r : List Comp) :
    pathLe p q = true → pathLe q r = true → pathLe p r = true := by
  unfold pathLe
  intro h1 h2
  cases hpq : pathCmp p q with
  | gt => rw [hpq] at h1; exact absurd h1 (by simp)
  | lt =>
    cases hqr : pathCmp q r with
    | gt => rw [hqr] at h2; exact absurd h2 (by simp)
    | lt => rw [pathCmp_lt_trans p q r hpq hqr]
    | eq =>
      have hk : q.map Comp.key = r.map Comp.key := (pathCmp_eq_iff_keys q r).1 hqr
      have : pathCmp p r = .lt := by
        unfold pathCmp
        rw [← hk]
        exact hpq
      rw [this]
  | eq =>
    have hk : p.map Comp.key = q.map Comp.key := (pathCmp_eq_iff_keys p q).1 hpq
    have : pathCmp p r = pathCmp q r := by
      unfold pathCmp
      rw [hk]
    rw [this]
    exact h2

instance : IsTotal (List Comp × List Char) path_order :=
  ⟨fun a b => pathLe_total a.1 b.1⟩

instance : IsTrans (List Comp × List Char) path_order :=
  ⟨fun a b c => pathLe_trans a.1 b.1 c.1⟩

theorem mem_unique_aux {α : Type} [DecidableEq α] (a : α) :
    ∀ (l seen : List α), a ∈ unique_aux seen l ↔ a ∈ l ∧ a ∉ seen
  | [], seen => by simp [unique_aux]
  | b :: r, seen => by
    by_cases hb : b ∈ seen
    · rw [unique_aux, if_pos hb, mem_unique_aux a r seen]
      simp only [List.mem_cons]
      constructor
      · rintro ⟨h1, h2⟩
        exact ⟨Or.inr h1, h2⟩
      · rintro ⟨h1 | h1, h2⟩
        · subst h1; exact absurd hb h2
        · exact ⟨h1, h2⟩
    · rw [unique_aux, if_neg hb]
      simp only [List.mem_cons, mem_unique_aux a r (b :: seen)]
      constructor
      · rintro (h | ⟨h1, h2⟩)
        · subst h; exact ⟨Or.inl rfl, hb⟩
        · exact ⟨Or.inr h1, fun hs => h2 (Or.inr hs)⟩
      · rintro ⟨h1 | h1, h2⟩
        · exact Or.inl h1
        · by_cases hab : a = b
          · exact Or.inl hab
          · exact Or.inr ⟨h1, by simp [hab, h2]⟩

theorem mem_unique_list {α : Type} [DecidableEq α] (a : α) (l : List α) :
    a ∈ unique_list l ↔ a ∈ l := by
  simp [unique_list, mem_unique_aux]

theorem gen_drain_fst : ∀ l, (gen_drain l).1 = gen_successes l
  | [] => rfl
  | .ok (p, d) :: r => by
    show (strip_dot p, hex_encode d) :: (gen_drain r).1 = gen_successes (.ok (p, d) :: r)
    rw [gen_drain_fst r]
    rfl
  | .error e :: r => by
    show (gen_drain r).1 = gen_successes (.error e :: r)
    rw [gen_drain_fst r]
    rfl

theorem gen_drain_false : ∀ l, (∃ e, Except.error e ∈ l) → (gen_drain l).2 = false
  | [] => by rintro ⟨e, he⟩; simp at he
  | .ok (p, d) :: r => by
    rintro ⟨e, he⟩
    rcases List.mem_cons.1 he with h | h
    · exact absurd h (by simp)
    · simp only [gen_drain]
      rw [gen_drain_false r ⟨e, h⟩]
  | .error e0 :: r => by intro _; simp [gen_drain]

theorem gen_count_no_err :
    ∀ entries, (∀ e ∈ entries, e ≠ GenEntry.err) →
      gen_count entries = (gen_submitted entries).length
  | [] => by intro _; rfl
  | .err :: r => by
    intro h
    exact absurd rfl (h .err (by simp))
  | .file p d f x res :: r => by
    intro h
    have ih := gen_count_no_err r (fun e he => h e (by simp [he]))
    by_cases hs : skip_entry d f x <;> simp [gen_count, gen_submitted, hs, ih]

theorem gen_msgs_length (entries : List GenEntry) :
    (gen_msgs entries).length = (gen_submitted entries).length := by
  simp [gen_msgs]

theorem utf8Len_ascii : ∀ l : List Char, (∀ c ∈ l, c.utf8Size = 1) →
    utf8Len l = l.length
  | [] => by intro _; rfl
  | c :: r => by
    intro h
    simp only [utf8Len, h c (by simp),
      utf8Len_ascii r (fun x hx => h x (by simp [hx])), List.length_cons]
    omega

theorem pairs_accepted_odd : ∀ l : List Char, l.length % 2 = 1 → pairs_accepted l = false
  | [] => by intro h; simp at h
  | [_] => by intro _; rfl
  | c1 :: c2 :: r => by
    intro h
    have hr : r.length % 2 = 1 := by
      simp only [List.length_cons] at h
      omega
    simp [pairs_accepted, pairs_accepted_odd r hr]

theorem str_to_bytes_go_ascii (s : List Char) :
    ∀ l, (∀ c ∈ l, c.utf8Size = 1) → l.length % 2 = 0 →
      (pairs_accepted l = true → ∃ bs, str_to_bytes_go s l = .ok bs) ∧
      (pairs_accepted l = false → str_to_bytes_go s l = .error (.InvalidHashValue s))
  | [] => by
    intro _ _
    exact ⟨fun _ => ⟨[], rfl⟩, fun h => by simp [pairs_accepted] at h⟩
  | [c] => by
    intro _ hlen
    simp at hlen
  | c1 :: c2 :: r => by
    intro hA hlen
    have h1 : c1.utf8Size = 1 := hA c1 (by simp)
    have h2 : c2.utf8Size = 1 := hA c2 (by simp)
    have hr : ∀ c ∈ r, c.utf8Size = 1 := fun c hc => hA c (by simp [hc])
    have hrl : r.length % 2 = 0 := by
      simp only [List.length_cons] at hlen
      omega
    have ih := str_to_bytes_go_ascii s r hr hrl
    constructor
    · intro hp
      simp only [pairs_accepted, Bool.and_eq_true] at hp
      obtain ⟨b, hb⟩ := Option.isSome_iff_exists.1 hp.1
      obtain ⟨bs, hbs⟩ := ih.1 hp.2
      exact ⟨b :: bs, by simp [str_to_bytes_go, h1, h2, hb, hbs]⟩
    · intro hp
      cases hfsr : from_str_radix16 c1 c2 with
      | none => simp [str_to_bytes_go, h1, h2, hfsr]
      | some b =>
        have hpr : pairs_accepted r = false := by
          simp only [pairs_accepted, hfsr, Option.isSome_some, Bool.true_and] at hp
          exact hp
        simp [str_to_bytes_go, h1, h2, hfsr, ih.2 hpr]

theorem hexChar_spec :
    ∀ n, n < 16 → (hexChar n).utf8Size = 1 ∧ hexDigitVal (hexChar n) = some n ∧
      hexChar n ≠ '+' := by decide

theorem hex_encode_length : ∀ d : List Nat, (hex_encode d).length = 2 * d.length
  | [] => rfl
  | b :: r => by
    simp only [hex_encode, byte_to_hex, List.cons_append, List.nil_append,
      List.length_cons, hex_encode_length r]
    omega

theorem hex_encode_ascii : ∀ d : List Nat, (∀ b ∈ d, b < 256) →
    ∀ c ∈ hex_encode d, c.utf8Size = 1
  | [] => by intro _ c hc; simp [hex_encode] at hc
  | b :: r => by
    intro h c hc
    have hb : b < 256 := h b (by simp)
    simp only [hex_encode, byte_to_hex, List.cons_append, List.nil_append,
      List.mem_cons] at hc
    rcases hc with h1 | h1 | h1
    · subst h1; exact (hexChar_spec _ (by omega)).1
    · subst h1; exact (hexChar_spec _ (by omega)).1
    · exact hex_encode_ascii r (fun x hx => h x (by simp [hx])) c h1

theorem str_to_bytes_go_hex (s : List Char) :
    ∀ d, (∀ b ∈ d, b < 256) → str_to_bytes_go s (hex_encode d) = .ok d
  | [] => by intro _; rfl
  | b :: r => by
    intro h
    have hb : b < 256 := h b (by simp)
    have h1 := hexChar_spec (b / 16) (by omega)
    have h2 := hexChar_spec (b % 16) (by omega)
    have ih := str_to_bytes_go_hex s r (fun x hx => h x (by simp [hx]))
    have hfsr : from_str_radix16 (hexChar (b / 16)) (hexChar (b % 16)) = some b := by
      unfold from_str_radix16
      rw [if_neg h1.2.2]
      rw [h1.2.1, h2.2.1]
      show some (16 * (b / 16) + b % 16) = some b
      exact congrArg some (by omega)
    simp [hex_encode, byte_to_hex, str_to_bytes_go, h1.1, h2.1, hfsr, ih]

/-! Claim theorems. -/

/-- Claim C1 (code bug): a traversal-error entry is logged and submits no work
unit, yet the misplaced `count += 1` (after the `match`, src/main.rs:89) still
counts it, so the drain loop performs more receives than messages will ever
arrive and blocks forever — instead of terminating after exactly one receive
per submitted digest computation.  Shown on a run whose enumeration is a
single traversal error: the counter is 1, nothing is submitted, no message is
ever sent, and the run hangs with the manifest file already truncated. -/
theorem c1_traversal_error_miscount :
    gen_count [GenEntry.err] = 1 ∧
    gen_submitted [GenEntry.err] = [] ∧
    gen_msgs [GenEntry.err] = [] ∧
    generate_checksums [GenEntry.err] [] false [] = .hangs (some []) :=
  ⟨rfl, rfl, rfl, rfl⟩

/-- Claim C2 counterexample: with an empty user exclusion list, and the
identity as canonicalization, `Exclusion::new` for the real manifest path
`out` builds the empty set — the manifest's canonical path is not contained,
although the claim demands it regardless of the list's contents. -/
theorem c2_counterexample :
    Exclusion.new [] ['o', 'u', 't'] some = [] ∧
    (['o', 'u', 't'] : List Char) ≠ ['-'] ∧
    ¬ (['o', 'u', 't'] ∈ Exclusion.new [] ['o', 'u', 't'] some) := by
  refine ⟨rfl, by decide, ?_⟩
  intro h
  simp [Exclusion.new, unique_list, unique_aux] at h

/-- Claim C2 amended: the exclusion set contains the manifest's canonical path
whenever the user exclusion list contains the `-` sentinel entry and the
manifest output is a real (non-sentinel) path that canonicalizes; without
such an entry nothing is added for the manifest file. -/
theorem c2_dash_entry_excludes_manifest (excludes : List (List Char))
    (cf c : List Char) (canon : List Char → Option (List Char))
    (hdash : ['-'] ∈ excludes) (hcf : cf ≠ ['-']) (hc : canon cf = some c) :
    c ∈ Exclusion.new excludes cf canon := by
  unfold Exclusion.new
  rw [mem_unique_list]
  refine List.mem_filterMap.2 ⟨['-'], hdash, ?_⟩
  rw [if_pos rfl, if_neg hcf, hc]

/-- A concrete application of the amended C2 theorem: a list consisting of the
sentinel entry, manifest path `o`, identity canonicalization. -/
theorem c2_dash_entry_excludes_manifest_witness :
    ['o'] ∈ Exclusion.new [['-']] ['o'] some :=
  c2_dash_entry_excludes_manifest [['-']] ['o'] ['o'] some (by decide) (by decide) rfl

/-- Claim C3 (code bug): the verification drain loop only logs an error result —
its `Err` arm (src/main.rs:172-174) does not clear `all_succeeded` — so a run
whose single unit yields an error (digest `0102030405` has five bytes, so
algorithm resolution fails) prints no OK/FAILED line and still returns
aggregate success `true`, where the claim requires the aggregate to be
`false`. -/
theorem c3_error_result_not_failure :
    ∀ (calcFile : List Char → Algorithm → Except AppError (List Nat)) (quiet : Bool),
      verify_msgs calcFile none
          (verify_units [['0', '1', '0', '2', '0', '3', '0', '4', '0', '5', ' ', ' ', 'f']]) =
        [.error (.UnknownAlgorithmError 40)] ∧
      verify_checksums [['0', '1', '0', '2', '0', '3', '0', '4', '0', '5', ' ', ' ', 'f']]
          none calcFile [.error (.UnknownAlgorithmError 40)] quiet = .done [] true := by
  intro calcFile quiet
  exact ⟨rfl, rfl⟩

/-- Claim C4 counterexample: `str_to_bytes` does not return the invalid-format
error exactly on odd length or a non-hex pair, and it is not crash-free: the
pair `+1` is not two hexadecimal digits yet decodes successfully (Rust's
`u8::from_str_radix` accepts a leading `+` sign), and the four-byte string
`aéa` panics — the slice `&s[0..2]` cuts the two-byte character `é`. -/
theorem c4_counterexample :
    str_to_bytes ['+', '1'] = .ok [1] ∧ str_to_bytes ['a', 'é', 'a'] = .crash := by
  exact ⟨by decide, by decide⟩

/-- Claim C4 amended: on ASCII input `str_to_bytes` never panics, and it
succeeds exactly when the string splits into two-character pairs accepted by
base-16 `u8` parsing (two hexadecimal digits, or a `+` followed by one
hexadecimal digit); otherwise — odd length included — it returns the
`InvalidHashValue` error.  Non-ASCII input can panic. -/
theorem c4_str_to_bytes_ascii_total (s : List Char) (h : ∀ c ∈ s, c.utf8Size = 1) :
    str_to_bytes s ≠ .crash ∧
    (pairs_accepted s = true → ∃ bs, str_to_bytes s = .ok bs) ∧
    (pairs_accepted s = false → str_to_bytes s = .error (.InvalidHashValue s)) := by
  have hlen := utf8Len_ascii s h
  by_cases hpar : s.length % 2 = 0
  · have heven : ¬ utf8Len s / 2 * 2 ≠ utf8Len s := by rw [hlen]; omega
    have hgo := str_to_bytes_go_ascii s s h hpar
    unfold str_to_bytes
    rw [if_neg heven]
    refine ⟨?_, hgo.1, hgo.2⟩
    cases hpa : pairs_accepted s
    · rw [hgo.2 hpa]; simp
    · obtain ⟨bs, hbs⟩ := hgo.1 hpa
      rw [hbs]; simp
  · have hodd : utf8Len s / 2 * 2 ≠ utf8Len s := by rw [hlen]; omega
    unfold str_to_bytes
    rw [if_pos hodd]
    have hpa := pairs_accepted_odd s (by omega)
    exact ⟨by simp, fun hx => by rw [hx] at hpa; exact absurd hpa (by simp),
      fun _ => rfl⟩

/-- A concrete application of the amended C4 theorem at the ASCII string `0a`. -/
theorem c4_str_to_bytes_ascii_total_witness :
    str_to_bytes ['0', 'a'] ≠ .crash :=
  (c4_str_to_bytes_ascii_total ['0', 'a'] (by decide)).1

/-- Claim C5 (code bug): `verify_checksum` given an explicit algorithm still
fails with `UnknownAlgorithmError` on a digest string of five bytes: in
`algorithm.unwrap_or(guess_algorithm(checksum.len() / 2)?)` the argument is
evaluated eagerly, so the `?` propagates the inference error although the
claim (and spec) say inference is consulted only when no algorithm is
supplied. -/
theorem c5_explicit_algorithm_still_infers :
    ∀ (calcDigest : Algorithm → Except AppError (List Nat)) (path : List Char)
      (a : Algorithm),
      verify_checksum calcDigest path ['0', '1', '0', '2', '0', '3', '0', '4', '0', '5']
        (some a) = .error (.UnknownAlgorithmError 40) := by
  intro calcDigest path a
  rfl

/-- Claim C6: `guess_algorithm` is total and correct: each of the six
supported byte lengths maps to exactly its algorithm, and every other length
fails with `UnknownAlgorithmError`. -/
theorem c6_guess_algorithm_spec :
    guess_algorithm 16 = .ok .MD5 ∧ guess_algorithm 20 = .ok .SHA1 ∧
    guess_algorithm 28 = .ok .SHA224 ∧ guess_algorithm 32 = .ok .SHA256 ∧
    guess_algorithm 48 = .ok .SHA384 ∧ guess_algorithm 64 = .ok .SHA512 ∧
    ∀ n : Nat, ¬(n = 16 ∨ n = 20 ∨ n = 28 ∨ n = 32 ∨ n = 48 ∨ n = 64) →
      guess_algorithm n = .error (.UnknownAlgorithmError (n * 8)) := by
  refine ⟨rfl, rfl, rfl, rfl, rfl, rfl, ?_⟩
  intro n h
  unfold guess_algorithm
  split <;> simp_all

/-- A concrete application of the C6 theorem at the unsupported length 31. -/
theorem c6_guess_algorithm_spec_witness :
    guess_algorithm 31 = .error (.UnknownAlgorithmError 248) :=
  c6_guess_algorithm_spec.2.2.2.2.2.2 31 (by decide)

/-- Claim C7: hex encoding and decoding round-trip: for every byte sequence
the `{:02x}` per-byte encoding has exactly twice as many characters as there
are bytes, and `str_to_bytes` decodes it back to exactly the same bytes. -/
theorem c7_hex_roundtrip (d : List Nat) (h : ∀ b ∈ d, b < 256) :
    (hex_encode d).length = 2 * d.length ∧ str_to_bytes (hex_encode d) = .ok d := by
  refine ⟨hex_encode_length d, ?_⟩
  have hl : utf8Len (hex_encode d) = 2 * d.length := by
    rw [utf8Len_ascii _ (hex_encode_ascii d h), hex_encode_length]
  unfold str_to_bytes
  rw [if_neg (by rw [hl]; omega)]
  exact str_to_bytes_go_hex _ d h

/-- A concrete application of the C7 theorem at the bytes `[0, 26, 255]`. -/
theorem c7_hex_roundtrip_witness :
    (hex_encode [0, 26, 255]).length = 2 * ([0, 26, 255] : List Nat).length ∧
    str_to_bytes (hex_encode [0, 26, 255]) = .ok [0, 26, 255] :=
  c7_hex_roundtrip [0, 26, 255] (by decide)

/-- Claim C8 counterexample: a completed generation run over the two files
`a/c` and `a!` (shown with its actual channel messages) writes the line for
`a/c` before the line for `a!`, because `PathBuf` ordering compares paths
component-wise; in byte-wise lexicographic order of the rendered path strings
`a!` is strictly below `a/c` (`!` is byte 0x21, `/` is 0x2f), so the
consecutive manifest lines are not in increasing byte order of their path
strings. -/
theorem c8_counterexample :
    generate_checksums
        [GenEntry.file [Comp.normal [97], Comp.normal [99]] false true false (.ok []),
         GenEntry.file [Comp.normal [97, 33]] false true false (.ok [])]
        (gen_msgs
          [GenEntry.file [Comp.normal [97], Comp.normal [99]] false true false (.ok []),
           GenEntry.file [Comp.normal [97, 33]] false true false (.ok [])])
        false [] =
      .done [([Comp.normal [97], Comp.normal [99]], []), ([Comp.normal [97, 33]], [])]
        (some [[' ', ' ', 'a', '/', 'c', '\n'], [' ', ' ', 'a', '!', '\n']]) true ∧
    render_path [Comp.normal [97], Comp.normal [99]] = ['a', '/', 'c'] ∧
    render_path [Comp.normal [97, 33]] = ['a', '!'] ∧
    byte_str_cmp ['a', '!'] ['a', '/', 'c'] = .lt := by
  exact ⟨by decide, by decide, by decide, by decide⟩

/-- Claim C8 amended: the manifest lines of every generation run are written
in non-decreasing component-wise path order — Rust's `PathBuf` comparison,
bytes within each component — independent of enumeration order and of the
order in which workers complete; this can disagree with byte-wise order of
the rendered path strings, and equal paths may repeat. -/
theorem c8_sorted_by_path_order (entries : List GenEntry)
    (arrival : List (Except AppError (List Comp × List Nat)))
    (toStdout : Bool) (prev : List (List Char)) :
    List.Sorted path_order
      (written_of (generate_checksums entries arrival toStdout prev)) := by
  by_cases hlt : arrival.length < gen_count entries
  · simp [generate_checksums, written_of, hlt]
  · simp only [generate_checksums, if_neg hlt, written_of]
    exact List.sorted_insertionSort path_order _

set_option maxRecDepth 10000 in
/-- Claim C9 counterexample: the 63-character digest string given by the
specification for the file `"abcdABCD1234"` is not the hex encoding of its
SHA-256 digest, and verifying the file against that string does not match —
its 31-byte length resolves to no algorithm, so verification fails with
`UnknownAlgorithmError`. -/
theorem c9_counterexample :
    hex_encode (sha256 test_msg) ≠ spec_hex63 ∧
    verify_checksum (calculate_checksum_sha256 test_msg) ['f'] spec_hex63 none =
      .error (.UnknownAlgorithmError 248) := by
  exact ⟨by decide, rfl⟩

set_option maxRecDepth 10000 in
/-- Claim C9 amended: the SHA-256 digest of the file contents
`"abcdABCD1234"` hex-encodes to the 64-character string `423d...19d0b` — the
specification's string extended by its missing final `b`, exactly the value
pinned by the repository's own test — and verifying the file against that
string yields a match. -/
theorem c9_sha256_vector :
    hex_encode (sha256 test_msg) = spec_hex63 ++ ['b'] ∧
    verify_checksum (calculate_checksum_sha256 test_msg) ['f']
      (spec_hex63 ++ ['b']) none = .ok (['f'], true) := by
  exact ⟨by decide, by decide⟩

/-- Claim C10: a generation run without traversal errors that drains some
failed digest computations still produces the manifest: for any previous file
contents, the output file holds exactly the rendered lines of the sorted
successful results — one line per successful computation, failures absent —
and the run returns `false`. -/
theorem c10_partial_failure_manifest (entries : List GenEntry)
    (arrival : List (Except AppError (List Comp × List Nat)))
    (prev : List (List Char))
    (hne : ∀ e ∈ entries, e ≠ GenEntry.err)
    (hperm : arrival.Perm (gen_msgs entries))
    (hfail : ∃ e, Except.error e ∈ arrival) :
    ∃ written,
      generate_checksums entries arrival false prev =
        .done written (some (written.map render_line)) false ∧
      written.Perm (gen_successes arrival) ∧
      List.Sorted path_order written := by
  have hlen : arrival.length = gen_count entries := by
    rw [hperm.length_eq, gen_msgs_length, gen_count_no_err entries hne]
  have hnl : ¬ arrival.length < gen_count entries := by omega
  have htake : arrival.take (gen_count entries) = arrival := by
    rw [← hlen]
    exact List.take_length arrival
  refine ⟨List.insertionSort path_order (gen_drain arrival).1, ?_, ?_, ?_⟩
  · simp only [generate_checksums, if_neg hnl, htake]
    rw [gen_drain_false arrival hfail]
    rfl
  · exact (gen_drain_fst arrival) ▸ List.perm_insertionSort path_order (gen_drain arrival).1
  · exact List.sorted_insertionSort path_order _

/-- A concrete application of the C10 theorem: two submitted files, one
succeeding and one failing, previous manifest contents `x`. -/
theorem c10_partial_failure_manifest_witness :
    ∃ written,
      generate_checksums
          [GenEntry.file [Comp.normal [98]] false true false (.ok [0]),
           GenEntry.file [Comp.normal [97]] false true false (.error .UnknownError)]
          [.ok ([Comp.normal [98]], [0]), .error .UnknownError] false [['x']] =
        .done written (some (written.map render_line)) false ∧
      written.Perm (gen_successes
        [.ok ([Comp.normal [98]], [0]), .error .UnknownError]) ∧
      List.Sorted path_order written :=
  c10_partial_failure_manifest _ _ _ (by decide) (by decide)
    ⟨.UnknownError, by decide⟩

end Chksum
